import Mathlib

/-!
A verification development for the claude-ai-deployer repository
(src/claude_ai_deployer.py and src/deployment_verifier.py).

The Python code is shallowly embedded: strings are lists of Unicode code
points, file bytes are lists of naturals below 256, fallible operations
return Except, and the external transport collaborator is an explicit
oracle argument.  Every definition is translated from the source.
-/

/-! ## Definitions -/

/-- Python strings are modelled as lists of Unicode code points. -/
abbrev PyStr := List Nat

/-- Code points of a Lean string literal; used to write concrete Python
string values in statements. -/
def str (s : String) : PyStr := s.data.map Char.toNat

/-- ASCII lowercasing of one code point.  Models the case folding that
re.IGNORECASE performs on the ASCII-only patterns of ROUTING_RULES. -/
def lowerChar (c : Nat) : Nat := if 65 ≤ c ∧ c ≤ 90 then c + 32 else c

/-- The regular-expression fragment used by the patterns of ROUTING_RULES:
literal characters, the dot-star wildcard, sequencing, alternation and
the end-of-string anchor. -/
inductive Regex where
  | epsilon
  | char (c : Nat)
  | dotStar
  | seq (r₁ r₂ : Regex)
  | alt (r₁ r₂ : Regex)
  | eol
deriving DecidableEq

/-- Remainders reachable after `.*` consumes a run of non-newline
characters (Python `.` does not match a newline without re.DOTALL). -/
def dotStarRem : List Nat → List (List Nat)
  | [] => [[]]
  | a :: s => (a :: s) :: (if a = 10 then [] else dotStarRem s)

/-- Backtracking matcher: the list of all suffixes that can remain after
the regex matches a prefix of the input.  Character comparison is
case-insensitive (re.IGNORECASE); the `$` anchor succeeds at the end of
the string or just before a final newline, as in Python without
re.MULTILINE. -/
def rmatch : Regex → List Nat → List (List Nat)
  | .epsilon, s => [s]
  | .char _, [] => []
  | .char c, a :: s => if lowerChar a = lowerChar c then [s] else []
  | .dotStar, s => dotStarRem s
  | .seq r₁ r₂, s => (rmatch r₁ s).flatMap (rmatch r₂)
  | .alt r₁ r₂, s => rmatch r₁ s ++ rmatch r₂ s
  | .eol, s => if s = [] ∨ s = [10] then [s] else []

/-- `re.match(pattern, s, re.IGNORECASE) is not None`: the pattern is
anchored at the start of `s` but need not consume all of it. -/
def rmatches (r : Regex) (s : List Nat) : Bool := !(rmatch r s).isEmpty

/-- A sequence of literal characters. -/
def lit (l : List Nat) : Regex := l.foldr (fun c r => .seq (.char c) r) .epsilon

/-- Pattern of shape `.*<l>$`. -/
def sfx (l : List Nat) : Regex := .seq .dotStar (.seq (lit l) .eol)

/-- Pattern of shape `.*<l₁>.*<l₂>$`. -/
def sfx2 (l₁ l₂ : List Nat) : Regex :=
  .seq .dotStar (.seq (lit l₁) (.seq .dotStar (.seq (lit l₂) .eol)))

/-- Pattern `.*\.(html|css|js)$`. -/
def webPat : Regex :=
  .seq .dotStar (.seq (.char 46)
    (.seq (.alt (lit (str "html")) (.alt (lit (str "css")) (lit (str "js")))) .eol))

/-- A destination value of the ROUTING_RULES dictionary:
repo, path and description. -/
structure Target where
  repo : PyStr
  path : PyStr
  description : PyStr
deriving DecidableEq

/-- The ROUTING_RULES dictionary of claude_ai_deployer.py, as the ordered
association list its insertion order defines (Python dicts iterate in
insertion order). -/
def ROUTING_RULES : List (Regex × Target) :=
  [ (sfx (str ".yml"),
      ⟨str "life-os", str ".github/workflows/", str "GitHub Actions workflow"⟩),
    (sfx2 (str "_node") (str ".py"),
      ⟨str "life-os", str "src/nodes/", str "LangGraph node module"⟩),
    (sfx2 (str "_agent") (str ".py"),
      ⟨str "life-os", str "src/agents/", str "Agent module"⟩),
    (sfx2 (str "_scraper") (str ".py"),
      ⟨str "brevard-bidder-scraper", str "src/scrapers/", str "Scraper module"⟩),
    (sfx (str ".py"),
      ⟨str "life-os", str "src/", str "Python module"⟩),
    (webPat,
      ⟨str "biddeed-conversational-ai", str "public/", str "Web artifact"⟩),
    (sfx (str ".md"),
      ⟨str "life-os", str "docs/", str "Documentation"⟩),
    (sfx (str ".docx"),
      ⟨str "life-os", str "reports/", str "Document report"⟩),
    (sfx (str ".pdf"),
      ⟨str "life-os", str "reports/", str "PDF report"⟩),
    (.seq (lit (str "SKILL.md")) .eol,
      ⟨str "life-os", str "skills/", str "Skill documentation"⟩) ]

/-- The dictionary returned by route_file: the matched target plus the
bare filename. -/
structure RouteResult where
  repo : PyStr
  path : PyStr
  description : PyStr
  filename : PyStr
deriving DecidableEq

/-- The for-loop of route_file over the routing rules: the first rule
whose pattern matches wins. -/
def findRoute : List (Regex × Target) → PyStr → Option Target
  | [], _ => none
  | (p, t) :: rest, name =>
      if rmatches p name then some t else findRoute rest name

/-- ClaudeAIDeployer.route_file: try every rule in declared order and
fall back to the fixed default destination. -/
def route_file (name : PyStr) : RouteResult :=
  match findRoute ROUTING_RULES name with
  | some t => ⟨t.repo, t.path, t.description, name⟩
  | none => ⟨str "life-os", str "artifacts/", str "Unclassified artifact", name⟩

/-- Character of the standard base64 alphabet for a 6-bit value. -/
def b64Char (n : Nat) : Nat :=
  if n < 26 then 65 + n
  else if n < 52 then 97 + (n - 26)
  else if n < 62 then 48 + (n - 52)
  else if n = 62 then 43
  else 47

/-- Inverse of the base64 alphabet. -/
def b64Val (c : Nat) : Option Nat :=
  if 65 ≤ c ∧ c ≤ 90 then some (c - 65)
  else if 97 ≤ c ∧ c ≤ 122 then some (c - 97 + 26)
  else if 48 ≤ c ∧ c ≤ 57 then some (c - 48 + 52)
  else if c = 43 then some 62
  else if c = 47 then some 63
  else none

/-- base64.b64encode on a byte string, producing the code points of the
base64 text, with = padding. -/
def base64Encode : List Nat → List Nat
  | [] => []
  | [b₁] => [b64Char (b₁ / 4), b64Char (b₁ % 4 * 16), 61, 61]
  | [b₁, b₂] => [b64Char (b₁ / 4), b64Char (b₁ % 4 * 16 + b₂ / 16),
      b64Char (b₂ % 16 * 4), 61]
  | b₁ :: b₂ :: b₃ :: rest =>
      b64Char (b₁ / 4) :: b64Char (b₁ % 4 * 16 + b₂ / 16) ::
      b64Char (b₂ % 16 * 4 + b₃ / 64) :: b64Char (b₃ % 64) ::
      base64Encode rest

/-- Standard base64 decoding (the inverse transform, used to state that
the encoded payload reconstructs the original bytes). -/
def base64Decode : List Nat → Option (List Nat)
  | [] => some []
  | c₁ :: c₂ :: c₃ :: c₄ :: rest =>
      if rest.isEmpty ∧ c₄ = 61 then
        if c₃ = 61 then
          match b64Val c₁, b64Val c₂ with
          | some v₁, some v₂ => some [v₁ * 4 + v₂ / 16]
          | _, _ => none
        else
          match b64Val c₁, b64Val c₂, b64Val c₃ with
          | some v₁, some v₂, some v₃ =>
              some [v₁ * 4 + v₂ / 16, v₂ % 16 * 16 + v₃ / 4]
          | _, _, _ => none
      else
        match b64Val c₁, b64Val c₂, b64Val c₃, b64Val c₄, base64Decode rest with
        | some v₁, some v₂, some v₃, some v₄, some bs =>
            some ((v₁ * 4 + v₂ / 16) :: (v₂ % 16 * 16 + v₃ / 4) ::
              (v₃ % 4 * 64 + v₄) :: bs)
        | _, _, _, _, _ => none
  | _ => none

/-- A UTF-8 continuation byte. -/
def isCont (b : Nat) : Bool := 128 ≤ b && b < 192

/-- Strict UTF-8 decoding of a byte string into code points, as Python
read_text(encoding=utf-8) performs it: rejects lone continuation bytes,
overlong forms, surrogates and code points beyond 0x10FFFF. -/
def utf8Decode : List Nat → Option (List Nat)
  | [] => some []
  | b :: rest =>
    if b < 128 then
      (utf8Decode rest).map (b :: ·)
    else if b < 194 then none
    else if b < 224 then
      match rest with
      | b₂ :: r =>
          if isCont b₂ then
            (utf8Decode r).map (((b - 192) * 64 + (b₂ - 128)) :: ·)
          else none
      | [] => none
    else if b < 240 then
      match rest with
      | b₂ :: b₃ :: r =>
          if isCont b₂ && isCont b₃ then
            let cp := (b - 224) * 4096 + (b₂ - 128) * 64 + (b₃ - 128)
            if cp < 2048 ∨ (55296 ≤ cp ∧ cp < 57344) then none
            else (utf8Decode r).map (cp :: ·)
          else none
      | _ => none
    else if b < 245 then
      match rest with
      | b₂ :: b₃ :: b₄ :: r =>
          if isCont b₂ && isCont b₃ && isCont b₄ then
            let cp := (b - 240) * 262144 + (b₂ - 128) * 4096 +
              (b₃ - 128) * 64 + (b₄ - 128)
            if cp < 65536 ∨ 1114111 < cp then none
            else (utf8Decode r).map (cp :: ·)
          else none
      | _ => none
    else none

/-- The universal-newline translation Python text mode performs in
read_text: a carriage-return/line-feed pair and a lone carriage return
both become a single line feed. -/
def newlineTranslate : List Nat → List Nat
  | [] => []
  | [c] => if c = 13 then [10] else [c]
  | c :: c₂ :: rest =>
    if c = 13 then
      if c₂ = 10 then 10 :: newlineTranslate rest
      else 10 :: newlineTranslate (c₂ :: rest)
    else c :: newlineTranslate (c₂ :: rest)

/-- ClaudeAIDeployer.encode_file: try to read the bytes as UTF-8 text
via read_text, which decodes and then applies the universal-newline
translation of text mode, returning the text with is_binary = false; on
a UnicodeDecodeError fall back to base64 over the raw bytes (read in
binary mode, untranslated) with is_binary = true. -/
def encode_file (bytes : List Nat) : PyStr × Bool :=
  match utf8Decode bytes with
  | some text => (newlineTranslate text, false)
  | none => (base64Encode bytes, true)

/-- Truncation to a 32-bit word. -/
def w32 (n : Nat) : Nat := n % 4294967296

/-- Right rotation of a 32-bit word. -/
def rotr (n x : Nat) : Nat := w32 (x / 2 ^ n + x % 2 ^ n * 2 ^ (32 - n))

/-- Bitwise complement of a 32-bit word. -/
def w32not (x : Nat) : Nat := 4294967295 - w32 x

def bigSigma0 (x : Nat) : Nat := rotr 2 x ^^^ rotr 13 x ^^^ rotr 22 x

def bigSigma1 (x : Nat) : Nat := rotr 6 x ^^^ rotr 11 x ^^^ rotr 25 x

def smallSigma0 (x : Nat) : Nat := rotr 7 x ^^^ rotr 18 x ^^^ x / 2 ^ 3

def smallSigma1 (x : Nat) : Nat := rotr 17 x ^^^ rotr 19 x ^^^ x / 2 ^ 10

/-- The SHA-256 round constants (the fractional parts of the cube roots
of the first 64 primes, as 32-bit words, written in decimal). -/
def sha256K : List Nat :=
  [1116352408, 1899447441, 3049323471, 3921009573, 961987163,
   1508970993, 2453635748, 2870763221, 3624381080, 310598401,
   607225278, 1426881987, 1925078388, 2162078206, 2614888103,
   3248222580, 3835390401, 4022224774, 264347078, 604807628,
   770255983, 1249150122, 1555081692, 1996064986, 2554220882,
   2821834349, 2952996808, 3210313671, 3336571891, 3584528711,
   113926993, 338241895, 666307205, 773529912, 1294757372,
   1396182291, 1695183700, 1986661051, 2177026350, 2456956037,
   2730485921, 2820302411, 3259730800, 3345764771, 3516065817,
   3600352804, 4094571909, 275423344, 430227734, 506948616,
   659060556, 883997877, 958139571, 1322822218, 1537002063,
   1747873779, 1955562222, 2024104815, 2227730452, 2361852424,
   2428436474, 2756734187, 3204031479, 3329325298]

/-- The SHA-256 initial hash words (fractional parts of the square roots
of the first 8 primes, in decimal). -/
def sha256H0 : List Nat :=
  [1779033703, 3144134277, 1013904242, 2773480762, 1359893119,
   2600822924, 528734635, 1541459225]

/-- The eight working registers of the compression loop. -/
structure Hash8 where
  a : Nat
  b : Nat
  c : Nat
  d : Nat
  e : Nat
  f : Nat
  g : Nat
  h : Nat

/-- Big-endian 32-bit words of a 64-byte block. -/
def toWords : List Nat → List Nat
  | b₁ :: b₂ :: b₃ :: b₄ :: rest =>
      (b₁ * 16777216 + b₂ * 65536 + b₃ * 256 + b₄) :: toWords rest
  | _ => []

/-- Message-schedule extension: append the next derived word n times. -/
def extendSchedule : Nat → List Nat → List Nat
  | 0, ws => ws
  | n + 1, ws =>
      extendSchedule n (ws ++ [w32 (smallSigma1 (ws.getD (ws.length - 2) 0) +
        ws.getD (ws.length - 7) 0 + smallSigma0 (ws.getD (ws.length - 15) 0) +
        ws.getD (ws.length - 16) 0)])

/-- One round of the compression function on (W, K). -/
def roundStep (st : Hash8) (wk : Nat × Nat) : Hash8 :=
  let t1 := w32 (st.h + bigSigma1 st.e +
    ((st.e &&& st.f) ^^^ (w32not st.e &&& st.g)) + wk.2 + wk.1)
  let t2 := w32 (bigSigma0 st.a +
    ((st.a &&& st.b) ^^^ (st.a &&& st.c) ^^^ (st.b &&& st.c)))
  ⟨w32 (t1 + t2), st.a, st.b, st.c, w32 (st.d + t1), st.e, st.f, st.g⟩

/-- The SHA-256 compression function over a 64-byte block. -/
def compress (hs : List Nat) (block : List Nat) : List Nat :=
  let ws := extendSchedule 48 (toWords block)
  let st := (ws.zip sha256K).foldl roundStep
    ⟨hs.getD 0 0, hs.getD 1 0, hs.getD 2 0, hs.getD 3 0,
     hs.getD 4 0, hs.getD 5 0, hs.getD 6 0, hs.getD 7 0⟩
  [w32 (hs.getD 0 0 + st.a), w32 (hs.getD 1 0 + st.b),
   w32 (hs.getD 2 0 + st.c), w32 (hs.getD 3 0 + st.d),
   w32 (hs.getD 4 0 + st.e), w32 (hs.getD 5 0 + st.f),
   w32 (hs.getD 6 0 + st.g), w32 (hs.getD 7 0 + st.h)]

/-- The streaming accumulator of hashlib: current hash words, the bytes
buffered short of a block, and the count of bytes absorbed so far. -/
structure SHA256State where
  h : List Nat
  buf : List Nat
  total : Nat

/-- Absorb one byte, compressing whenever a 64-byte block fills up. -/
def absorbByte (s : SHA256State) (b : Nat) : SHA256State :=
  let buf := s.buf ++ [b]
  if buf.length = 64 then ⟨compress s.h buf, [], s.total + 1⟩
  else ⟨s.h, buf, s.total + 1⟩

def sha256Init : SHA256State := ⟨sha256H0, [], 0⟩

/-- hashlib update: absorb a byte string into the accumulator. -/
def shaUpdate (s : SHA256State) (bs : List Nat) : SHA256State :=
  bs.foldl absorbByte s

/-- Big-endian 64-bit length field of the padding. -/
def lenBytes (n : Nat) : List Nat :=
  [n / 2 ^ 56 % 256, n / 2 ^ 48 % 256, n / 2 ^ 40 % 256, n / 2 ^ 32 % 256,
   n / 2 ^ 24 % 256, n / 2 ^ 16 % 256, n / 2 ^ 8 % 256, n % 256]

/-- Split a byte string into chunks of n bytes (the last may be short). -/
def chunksBy (n : Nat) : List Nat → List (List Nat)
  | [] => []
  | a :: rest => (a :: rest.take (n - 1)) :: chunksBy n (rest.drop (n - 1))
termination_by l => l.length
decreasing_by
  simp only [List.length_drop, List.length_cons]
  omega

/-- hashlib digest: pad the buffered tail and compress the closing
block(s). -/
def shaFinal (s : SHA256State) : List Nat :=
  let padZeros := (119 - s.buf.length) % 64
  let padded := s.buf ++ 128 :: (List.replicate padZeros 0 ++ lenBytes (8 * s.total))
  (chunksBy 64 padded).foldl compress s.h

def hexDigitChar (n : Nat) : Nat := if n < 10 then 48 + n else 87 + n

/-- Lowercase hex rendering of one 32-bit word. -/
def wordHex (w : Nat) : List Nat :=
  [hexDigitChar (w / 2 ^ 28 % 16), hexDigitChar (w / 2 ^ 24 % 16),
   hexDigitChar (w / 2 ^ 20 % 16), hexDigitChar (w / 2 ^ 16 % 16),
   hexDigitChar (w / 2 ^ 12 % 16), hexDigitChar (w / 2 ^ 8 % 16),
   hexDigitChar (w / 2 ^ 4 % 16), hexDigitChar (w % 16)]

/-- hashlib hexdigest of an accumulator state. -/
def hexdigest (s : SHA256State) : PyStr := (shaFinal s).flatMap wordHex

/-- One-shot digest: hashlib.sha256(bytes).hexdigest(). -/
def sha256Hex (bytes : List Nat) : PyStr := hexdigest (shaUpdate sha256Init bytes)

/-- ClaudeAIDeployer.calculate_checksum: read the file in 4096-byte
chunks, feeding each to sha256.update, and return the hex digest. -/
def calculate_checksum (bytes : List Nat) : PyStr :=
  hexdigest ((chunksBy 4096 bytes).foldl shaUpdate sha256Init)

/-- A filesystem path: the parent components and the final component
(Path.name, the bare filename). -/
structure PyPath where
  parent : List PyStr
  name : PyStr
deriving DecidableEq

/-- str(filepath): the components joined by the path separator. -/
def pathStr (p : PyPath) : PyStr :=
  (p.parent.map (· ++ [47])).flatten ++ p.name

/-- The dictionary built by create_deployment_manifest. -/
structure Manifest where
  source_file : PyStr
  filename : PyStr
  target_repo : PyStr
  target_path : PyStr
  description : PyStr
  is_binary : Bool
  checksum : PyStr
  size_bytes : Nat
  created_at : PyStr
  deployed_by : PyStr
  version : PyStr
deriving DecidableEq

/-- ClaudeAIDeployer.create_deployment_manifest.  The raw file bytes
stand in for the filesystem reads the method performs (the checksum is
computed from the file, not from the content argument, and
stat().st_size is the byte count); the timestamp argument models
datetime.utcnow(). -/
def create_deployment_manifest (filepath : PyPath) (route : RouteResult)
    (content : PyStr) (is_binary : Bool) (bytes : List Nat) (ts : PyStr) :
    Manifest :=
  { source_file := pathStr filepath
    filename := filepath.name
    target_repo := route.repo
    target_path := route.path ++ filepath.name
    description := route.description
    is_binary := is_binary
    checksum := calculate_checksum bytes
    size_bytes := bytes.length
    created_at := ts
    deployed_by := str "claude-ai-deployer"
    version := str "1.0.0" }

/-- A filesystem tree entry: a regular file or a directory with
children. -/
inductive FSEntry where
  | file (name : PyStr)
  | dir (name : PyStr) (children : List FSEntry)

/-- The name of an entry. -/
def entryName : FSEntry → PyStr
  | .file n => n
  | .dir n _ => n

/-- item.is_file(). -/
def isFile : FSEntry → Bool
  | .file _ => true
  | .dir _ _ => false

mutual

/-- Path.rglob: every descendant item of a directory tree, in pre-order
(a file has no descendants). -/
def descendants : FSEntry → List FSEntry
  | .file _ => []
  | .dir _ children => descendantsList children

/-- Descendant items of a list of siblings, each followed by its own
descendants. -/
def descendantsList : List FSEntry → List FSEntry
  | [] => []
  | c :: rest => c :: (descendants c ++ descendantsList rest)

end

/-- item.name.startswith with a dot: the hidden-file marker test. -/
def startsWithDot (n : PyStr) : Bool :=
  match n with
  | [] => false
  | c :: _ => c == 46

/-- ClaudeAIDeployer.scan_outputs: none models a missing outputs
directory (exists() is false), in which case the empty list is returned;
otherwise every item under the root is kept when it is a regular file
whose name does not start with a dot. -/
def scan_outputs (root : Option FSEntry) : List FSEntry :=
  match root with
  | none => []
  | some r => (descendants r).filter fun item =>
      isFile item && !startsWithDot (entryName item)

/-- A scanned file: its path and the outcome of reading its bytes.  An
unreadable file (permission denied, vanished) carries the OSError
message that read_text or open would raise. -/
structure SFile where
  path : PyPath
  bytes : Except PyStr (List Nat)

/-- The dictionary returned by push_to_github: always status prepared
with the target repo, path and the manifest (the generated curl command
string is a pure rendering no claim touches and is not modelled). -/
structure PushResult where
  status : PyStr
  repo : PyStr
  path : PyStr
  manifest : Manifest
deriving DecidableEq

/-- ClaudeAIDeployer.push_to_github. -/
def push_to_github (manifest : Manifest) (content : PyStr) : PushResult :=
  { status := str "prepared"
    repo := manifest.target_repo
    path := manifest.target_path
    manifest := manifest }

/-- A row of self.deployment_log. -/
structure LogEntry where
  filepath : PyStr
  manifest : Manifest
  result : PushResult
  timestamp : PyStr
deriving DecidableEq

/-- The two dictionary shapes accumulated by deploy_all: the result of a
successful per-file pipeline, or the failure record built in the except
branch (status failed, error description, file path). -/
inductive DeployOutcome where
  | ok (result : PushResult)
  | failed (error : PyStr) (filepath : PyStr)
deriving DecidableEq

/-- The status field of either outcome shape. -/
def outcomeStatus : DeployOutcome → PyStr
  | .ok r => r.status
  | .failed _ _ => str "failed"

/-- ClaudeAIDeployer.deploy_file: route, encode, manifest (checksum and
size from the raw bytes), push, and append the entry to the in-memory
deployment log.  A failed read escapes as the exception value. -/
def deploy_file (f : SFile) (log : List LogEntry) (ts : PyStr) :
    Except PyStr (PushResult × List LogEntry) :=
  match f.bytes with
  | .error e => .error e
  | .ok bs =>
    let route := route_file f.path.name
    let enc := encode_file bs
    let manifest := create_deployment_manifest f.path route enc.1 enc.2 bs ts
    let result := push_to_github manifest enc.1
    .ok (result, log ++ [⟨pathStr f.path, manifest, result, ts⟩])

/-- One iteration of the deploy_all loop: try deploy_file, catching any
exception as a failed record appended to the results. -/
def deployStep (ts : PyStr) (acc : List DeployOutcome × List LogEntry)
    (f : SFile) : List DeployOutcome × List LogEntry :=
  match deploy_file f acc.2 ts with
  | .ok (r, log') => (acc.1 ++ [.ok r], log')
  | .error e => (acc.1 ++ [.failed e (pathStr f.path)], acc.2)

/-- ClaudeAIDeployer.deploy_all over the scanned files, starting from
the empty in-memory log of a fresh run. -/
def deploy_all (files : List SFile) (ts : PyStr) :
    List DeployOutcome × List LogEntry :=
  files.foldl (deployStep ts) ([], [])

/-- The (total, prepared, failed) counters of
generate_deployment_report, computed over the deployment log. -/
def report_counters (log : List LogEntry) : Nat × Nat × Nat :=
  (log.length,
   (log.filter fun e => e.result.status == str "prepared").length,
   (log.filter fun e => e.result.status == str "failed").length)

/-- The two concrete files of the partial-failure scenario. -/
def sampleGood : SFile := ⟨⟨[], str "notes.md"⟩, .ok [104, 105]⟩

def sampleBad : SFile :=
  ⟨⟨[], str "data.bin"⟩, .error (str "Permission denied")⟩

/-- The observable outcome of one curl existence query: the stripped
stdout status-code string, or a raised exception (network failure,
10 second timeout) whose message verify_file_exists catches. -/
inductive TransportOutcome where
  | status (code : PyStr)
  | exc (msg : PyStr)
deriving DecidableEq

/-- DeploymentVerifier.verify_file_exists: true exactly when the
reported status code string equals 200; every exception is caught and
yields false (no retry). -/
def verify_file_exists (outcome : TransportOutcome) : Bool :=
  match outcome with
  | .status code => code == str "200"
  | .exc _ => false

/-- The manifest fields verify_all reads from a log row, each possibly
missing (the code supplies defaults with .get). -/
structure VManifest where
  filename : Option PyStr
  target_repo : Option PyStr
  target_path : Option PyStr
deriving DecidableEq

/-- A deployment row of the loaded log. -/
structure VDeployment where
  manifest : Option VManifest
deriving DecidableEq

/-- A per-entry verification result. -/
structure VDetail where
  filename : PyStr
  repo : PyStr
  path : PyStr
  verified : Bool
deriving DecidableEq

/-- The verification summary dictionary. -/
structure VSummary where
  total : Nat
  verified : Nat
  failed : Nat
  success_rate : ℚ
  details : List VDetail
deriving DecidableEq

/-- The Python errors the verifier can raise. -/
inductive PyErr where
  | zeroDivisionError
deriving DecidableEq

/-- DeploymentVerifier.verify_all.  The oracle gives the transport
outcome of the i-th existence query (the fixed 2 second inter-request
sleep has no observable effect in this model).  After the loop the
summary rendering prints verified/total*100 and failed/total*100, which
raises ZeroDivisionError when the log is empty; only past that print is
the summary dictionary built, whose success_rate expression alone
guards total > 0. -/
def verify_all (deployments : List VDeployment)
    (oracle : Nat → TransportOutcome) : Except PyErr VSummary :=
  let total := deployments.length
  let folded := deployments.enum.foldl
    (fun acc id =>
      let m := id.2.manifest.getD ⟨none, none, none⟩
      let filename := m.filename.getD (str "unknown")
      let repo := m.target_repo.getD []
      let path := m.target_path.getD []
      let ex := verify_file_exists (oracle id.1)
      ((if ex then acc.1 + 1 else acc.1),
       (if ex then acc.2.1 else acc.2.1 + 1),
       acc.2.2 ++ [⟨filename, repo, path, ex⟩]))
    ((0 : Nat), (0 : Nat), ([] : List VDetail))
  if total = 0 then .error .zeroDivisionError
  else .ok ⟨total, folded.1, folded.2.1,
    (if 0 < total then (folded.1 : ℚ) / (total : ℚ) else 0), folded.2.2⟩

/-- A log row with all manifest fields present. -/
def vdep (fn repo path : String) : VDeployment :=
  ⟨some ⟨some (str fn), some (str repo), some (str path)⟩⟩

/-- The collaborator reports 200 for the first query and 404 for the
second. -/
def oracle200_404 : Nat → TransportOutcome :=
  fun i => if i = 0 then .status (str "200") else .status (str "404")

/-! ## Theorems -/

example : str "ab" = [97, 98] := by decide

example : rmatches (sfx (str ".yml")) (str "deploy.yml") = true := by decide

example : rmatches (sfx (str ".yml")) (str "DEPLOY.YML") = true := by decide

example : route_file (str "pipeline_scraper.py") =
    ⟨str "brevard-bidder-scraper", str "src/scrapers/", str "Scraper module",
     str "pipeline_scraper.py"⟩ := by decide

example : route_file (str "pipeline.py") =
    ⟨str "life-os", str "src/", str "Python module", str "pipeline.py"⟩ := by decide

example : route_file (str "data.bin") =
    ⟨str "life-os", str "artifacts/", str "Unclassified artifact", str "data.bin"⟩ := by
  decide

example : route_file (str "SKILL.md") =
    ⟨str "life-os", str "docs/", str "Documentation", str "SKILL.md"⟩ := by decide

example : route_file (str "a\nb.md") =
    ⟨str "life-os", str "artifacts/", str "Unclassified artifact", str "a\nb.md"⟩ := by
  decide

theorem rmatch_seq (r₁ r₂ : Regex) (s : List Nat) :
    rmatch (.seq r₁ r₂) s = (rmatch r₁ s).flatMap (rmatch r₂) := by
  cases s <;> rfl

theorem rmatch_alt (r₁ r₂ : Regex) (s : List Nat) :
    rmatch (.alt r₁ r₂) s = rmatch r₁ s ++ rmatch r₂ s := by
  cases s <;> rfl

theorem rmatch_dotStar (s : List Nat) : rmatch .dotStar s = dotStarRem s := by
  cases s <;> rfl

theorem rmatches_true_iff {r : Regex} {s : List Nat} :
    rmatches r s = true ↔ ∃ t, t ∈ rmatch r s := by
  constructor
  · intro h
    cases hm : rmatch r s with
    | nil => simp [rmatches, hm] at h
    | cons a l => exact ⟨a, by simp [hm]⟩
  · rintro ⟨t, ht⟩
    cases hm : rmatch r s with
    | nil => simp [hm] at ht
    | cons a l => simp [rmatches, hm]

theorem mem_rmatch_char {c : Nat} {s t : List Nat} :
    t ∈ rmatch (.char c) s ↔ ∃ a, s = a :: t ∧ lowerChar a = lowerChar c := by
  cases s with
  | nil => simp [rmatch]
  | cons a s' =>
    by_cases h : lowerChar a = lowerChar c
    · simp only [rmatch, if_pos h, List.mem_singleton]
      constructor
      · rintro rfl; exact ⟨a, rfl, h⟩
      · rintro ⟨b, hb, _⟩; cases hb; rfl
    · simp only [rmatch, if_neg h, List.not_mem_nil, false_iff]
      rintro ⟨b, hb, hbc⟩; cases hb; exact h hbc

theorem mem_dotStarRem_decomp {s t : List Nat} (h : t ∈ dotStarRem s) :
    ∃ p, s = p ++ t ∧ ∀ x ∈ p, x ≠ 10 := by
  induction s with
  | nil =>
    simp [dotStarRem] at h
    exact ⟨[], by simp [h], by simp⟩
  | cons a s' ih =>
    simp only [dotStarRem, List.mem_cons] at h
    rcases h with rfl | h
    · exact ⟨[], rfl, by simp⟩
    · by_cases ha : a = 10
      · simp [ha] at h
      · simp only [if_neg ha] at h
        obtain ⟨p, rfl, hp⟩ := ih h
        refine ⟨a :: p, rfl, ?_⟩
        intro x hx
        rcases List.mem_cons.mp hx with rfl | hx
        · exact ha
        · exact hp x hx

theorem mem_dotStarRem_intro {u t : List Nat} (hu : ∀ x ∈ u, x ≠ 10) :
    t ∈ dotStarRem (u ++ t) := by
  induction u with
  | nil =>
    cases t with
    | nil => simp [dotStarRem]
    | cons a t' => simp [dotStarRem]
  | cons a u' ih =>
    have ha : a ≠ 10 := hu a (by simp)
    simp only [List.cons_append, dotStarRem, if_neg ha, List.mem_cons]
    exact Or.inr (ih fun x hx => hu x (by simp [hx]))

theorem mem_rmatch_lit_decomp {l s t : List Nat} (h : t ∈ rmatch (lit l) s) :
    ∃ p, s = p ++ t ∧ p.map lowerChar = l.map lowerChar := by
  induction l generalizing s with
  | nil =>
    simp [lit, rmatch] at h
    exact ⟨[], by simp [h], by simp⟩
  | cons c l' ih =>
    simp only [lit, List.foldr_cons, rmatch, List.mem_flatMap] at h
    obtain ⟨t₁, ht₁, ht⟩ := h
    obtain ⟨a, rfl, hac⟩ := mem_rmatch_char.mp ht₁
    obtain ⟨p, rfl, hp⟩ := ih ht
    exact ⟨a :: p, rfl, by simp [hp, hac, lit]⟩

theorem mem_rmatch_lit_intro {l p : List Nat} (t : List Nat)
    (hp : p.map lowerChar = l.map lowerChar) : t ∈ rmatch (lit l) (p ++ t) := by
  induction l generalizing p with
  | nil =>
    have : p = [] := by simpa using hp
    simp [this, lit, rmatch]
  | cons c l' ih =>
    rw [List.map_cons] at hp
    obtain ⟨a, p', rfl, hac, hp'⟩ := List.map_eq_cons_iff.mp hp
    have h1 : lit (c :: l') = .seq (.char c) (lit l') := by
      simp [lit]
    rw [h1, rmatch_seq, List.mem_flatMap]
    exact ⟨p' ++ t, mem_rmatch_char.mpr ⟨a, by simp, hac⟩, ih hp'⟩

theorem mem_rmatch_eol {s t : List Nat} (h : t ∈ rmatch .eol s) :
    t = s ∧ (s = [] ∨ s = [10]) := by
  by_cases hc : s = [] ∨ s = [10]
  · simp only [rmatch, if_pos hc, List.mem_singleton] at h
    exact ⟨h, hc⟩
  · simp [rmatch, if_neg hc] at h

theorem mem_rmatch_eol_intro {s : List Nat} (h : s = [] ∨ s = [10]) :
    s ∈ rmatch .eol s := by
  simp [rmatch, if_pos h]

/-- A match of `.*<l>$` splits the input into a newline-free prefix, a
case-insensitive copy of `l`, and an optional trailing newline. -/
theorem sfx_ends {l s : List Nat} (h : rmatches (sfx l) s = true) :
    ∃ u q e, s = u ++ q ++ e ∧ q.map lowerChar = l.map lowerChar ∧
      (e = [] ∨ e = [10]) := by
  obtain ⟨t, ht⟩ := rmatches_true_iff.mp h
  simp only [sfx, rmatch, List.mem_flatMap] at ht
  obtain ⟨t₁, ht₁, t₂, ht₂, ht⟩ := ht
  obtain ⟨u, rfl, _⟩ := mem_dotStarRem_decomp ht₁
  obtain ⟨q, rfl, hq⟩ := mem_rmatch_lit_decomp ht₂
  obtain ⟨rfl, he⟩ := mem_rmatch_eol ht
  exact ⟨u, q, t, by simp, hq, he⟩

/-- Conversely, such a split yields a match of `.*<l>$`. -/
theorem sfx_intro {l s u q e : List Nat} (hs : s = u ++ q ++ e)
    (hu : ∀ x ∈ u, x ≠ 10) (hq : q.map lowerChar = l.map lowerChar)
    (he : e = [] ∨ e = [10]) : rmatches (sfx l) s = true := by
  refine rmatches_true_iff.mpr ⟨e, ?_⟩
  simp only [sfx, rmatch, List.mem_flatMap]
  refine ⟨q ++ e, ?_, e, mem_rmatch_lit_intro e hq, mem_rmatch_eol_intro he⟩
  rw [hs, List.append_assoc]
  exact mem_dotStarRem_intro hu

/-- A match of `.*<l₁>.*<l₂>$` in particular ends with a case-insensitive
copy of `l₂` followed by an optional newline. -/
theorem sfx2_ends {l₁ l₂ s : List Nat} (h : rmatches (sfx2 l₁ l₂) s = true) :
    ∃ u q e, s = u ++ q ++ e ∧ q.map lowerChar = l₂.map lowerChar ∧
      (e = [] ∨ e = [10]) := by
  obtain ⟨t, ht⟩ := rmatches_true_iff.mp h
  simp only [sfx2, rmatch, List.mem_flatMap] at ht
  obtain ⟨t₁, ht₁, t₂, ht₂, t₃, ht₃, t₄, ht₄, ht⟩ := ht
  obtain ⟨u₁, rfl, _⟩ := mem_dotStarRem_decomp ht₁
  obtain ⟨p₁, rfl, _⟩ := mem_rmatch_lit_decomp ht₂
  obtain ⟨u₂, rfl, _⟩ := mem_dotStarRem_decomp ht₃
  obtain ⟨q, rfl, hq⟩ := mem_rmatch_lit_decomp ht₄
  obtain ⟨rfl, he⟩ := mem_rmatch_eol ht
  exact ⟨u₁ ++ p₁ ++ u₂, q, t, by simp, hq, he⟩

/-- A match of `.*\.(html|css|js)$` ends with a dot, a case-insensitive
copy of html, css or js, and an optional newline. -/
theorem webPat_ends {s : List Nat} (h : rmatches webPat s = true) :
    ∃ u q e, s = u ++ (46 :: q) ++ e ∧
      (q.map lowerChar = str "html" ∨ q.map lowerChar = str "css" ∨
        q.map lowerChar = str "js") ∧ (e = [] ∨ e = [10]) := by
  obtain ⟨t, ht⟩ := rmatches_true_iff.mp h
  rw [webPat, rmatch_seq, List.mem_flatMap] at ht
  obtain ⟨t₁, ht₁, ht⟩ := ht
  rw [rmatch_seq, List.mem_flatMap] at ht
  obtain ⟨t₂, ht₂, ht⟩ := ht
  rw [rmatch_seq, List.mem_flatMap] at ht
  obtain ⟨t₃, ht₃, ht⟩ := ht
  rw [rmatch_alt, rmatch_alt, List.mem_append, List.mem_append] at ht₃
  have ht₃ : t₃ ∈ rmatch (lit (str "html")) t₂ ∨
      t₃ ∈ rmatch (lit (str "css")) t₂ ∨ t₃ ∈ rmatch (lit (str "js")) t₂ := by
    tauto
  rw [rmatch_dotStar] at ht₁
  obtain ⟨u, rfl, _⟩ := mem_dotStarRem_decomp ht₁
  obtain ⟨a, rfl, ha⟩ := mem_rmatch_char.mp ht₂
  have ha46 : a = 46 := by
    by_cases h1 : 65 ≤ a ∧ a ≤ 90 <;> simp [lowerChar, h1] at ha <;> omega
  subst ha46
  obtain ⟨rfl, he⟩ := mem_rmatch_eol ht
  rcases ht₃ with hm | hm | hm
  · obtain ⟨q, rfl, hq⟩ := mem_rmatch_lit_decomp hm
    refine ⟨u, q, t, by simp, Or.inl ?_, he⟩
    rw [hq]; decide
  · obtain ⟨q, rfl, hq⟩ := mem_rmatch_lit_decomp hm
    refine ⟨u, q, t, by simp, Or.inr (Or.inl ?_), he⟩
    rw [hq]; decide
  · obtain ⟨q, rfl, hq⟩ := mem_rmatch_lit_decomp hm
    refine ⟨u, q, t, by simp, Or.inr (Or.inr ?_), he⟩
    rw [hq]; decide

theorem lowerChar_lowerChar (a : Nat) : lowerChar (lowerChar a) = lowerChar a := by
  unfold lowerChar
  by_cases h : 65 ≤ a ∧ a ≤ 90
  · rw [if_pos h, if_neg (by omega)]
  · rw [if_neg h, if_neg h]

theorem lowerChar_eq_ten {a : Nat} : lowerChar a = 10 ↔ a = 10 := by
  unfold lowerChar
  by_cases h : 65 ≤ a ∧ a ≤ 90
  · rw [if_pos h]; omega
  · rw [if_neg h]

theorem dotStarRem_map_lower (s : List Nat) :
    dotStarRem (s.map lowerChar) = (dotStarRem s).map (List.map lowerChar) := by
  induction s with
  | nil => rfl
  | cons a s' ih =>
    simp only [List.map_cons, dotStarRem, List.map_cons]
    by_cases ha : a = 10
    · subst ha
      norm_num [lowerChar]
    · have ha' : lowerChar a ≠ 10 := fun h => ha (lowerChar_eq_ten.mp h)
      simp [if_neg ha, if_neg ha', ih]

theorem rmatch_map_lower (r : Regex) (s : List Nat) :
    rmatch r (s.map lowerChar) = (rmatch r s).map (List.map lowerChar) := by
  induction r generalizing s with
  | epsilon => rfl
  | char c =>
    cases s with
    | nil => rfl
    | cons a s' =>
      simp only [List.map_cons, rmatch, lowerChar_lowerChar]
      by_cases h : lowerChar a = lowerChar c
      · simp [h]
      · simp [h]
  | dotStar =>
    rw [rmatch_dotStar, rmatch_dotStar, dotStarRem_map_lower]
  | seq r₁ r₂ ih₁ ih₂ =>
    rw [rmatch_seq, rmatch_seq, ih₁, List.flatMap_map, List.map_flatMap]
    exact List.flatMap_congr fun t _ => ih₂ t
  | alt r₁ r₂ ih₁ ih₂ =>
    rw [rmatch_alt, rmatch_alt, ih₁, ih₂, List.map_append]
  | eol =>
    by_cases h : s = [] ∨ s = [10]
    · rcases h with rfl | rfl
      · rfl
      · norm_num [rmatch, lowerChar]
    · have h' : ¬(s.map lowerChar = [] ∨ s.map lowerChar = [10]) := by
        rintro (h1 | h1)
        · exact h (Or.inl (List.map_eq_nil_iff.mp h1))
        · obtain ⟨a, l₁, rfl, ha, hl⟩ := List.map_eq_cons_iff.mp h1
          rw [List.map_eq_nil_iff.mp hl] at h
          exact h (Or.inr (by rw [lowerChar_eq_ten.mp ha]))
      simp only [rmatch, if_neg h, if_neg h']
      rfl

theorem rmatches_map_lower (r : Regex) (s : List Nat) :
    rmatches r (s.map lowerChar) = rmatches r s := by
  unfold rmatches
  rw [rmatch_map_lower]
  cases rmatch r s <;> rfl

theorem findRoute_map_lower (rules : List (Regex × Target)) (name : PyStr) :
    findRoute rules (name.map lowerChar) = findRoute rules name := by
  induction rules with
  | nil => rfl
  | cons hd rest ih =>
    cases hd with
    | mk p t =>
      simp only [findRoute, rmatches_map_lower, ih]

theorem findRoute_first {rules : List (Regex × Target)} {name : PyStr}
    {i : Nat} {p : Regex} {t : Target}
    (hget : rules.get? i = some (p, t)) (hm : rmatches p name = true)
    (hprev : ∀ j, j < i → ∀ pj tj, rules.get? j = some (pj, tj) →
      rmatches pj name = false) :
    findRoute rules name = some t := by
  induction rules generalizing i with
  | nil => simp at hget
  | cons hd rest ih =>
    cases hd with
    | mk p0 t0 =>
      cases i with
      | zero =>
        rw [List.get?_cons_zero] at hget
        obtain ⟨rfl, rfl⟩ : p0 = p ∧ t0 = t := by
          cases hget; exact ⟨rfl, rfl⟩
        simp [findRoute, hm]
      | succ i' =>
        have h0 : rmatches p0 name = false :=
          hprev 0 (Nat.succ_pos _) p0 t0 (by simp)
        rw [List.get?_cons_succ] at hget
        simp only [findRoute, h0, Bool.false_eq_true, if_false]
        exact ih hget fun j hj pj tj hgetj =>
          hprev (j + 1) (by omega) pj tj (by simpa using hgetj)

theorem getLast?_of_suffix_concat {L p : List Nat} {x : Nat}
    (h : p ++ [x] <:+ L) : L.getLast? = some x := by
  obtain ⟨w, hw⟩ := h
  rw [← hw, ← List.append_assoc, List.getLast?_concat]

theorem ends_getLast {s u q e l₀ : List Nat} {x : Nat}
    (hs : s = u ++ q ++ e) (hq : q.map lowerChar = l₀ ++ [x])
    (he : e = [] ∨ e = [10]) (hnl : (10 : Nat) ∉ s) :
    (s.map lowerChar).getLast? = some x := by
  rcases he with rfl | rfl
  · have hs' : s = u ++ q := by simpa using hs
    rw [hs', List.map_append, hq, ← List.append_assoc, List.getLast?_concat]
  · exact absurd (by rw [hs]; simp) hnl

theorem sfx_false_of_last {s l l₀ : List Nat} {x y : Nat}
    (hnl : (10 : Nat) ∉ s) (hlast : (s.map lowerChar).getLast? = some y)
    (hl : l.map lowerChar = l₀ ++ [x]) (hxy : x ≠ y) :
    rmatches (sfx l) s = false := by
  cases hb : rmatches (sfx l) s with
  | false => rfl
  | true =>
    obtain ⟨u, q, e, hs, hq, he⟩ := sfx_ends hb
    have hx := ends_getLast hs (hq.trans hl) he hnl
    exact absurd (Option.some.inj (hlast.symm.trans hx)).symm hxy

theorem sfx2_false_of_last {s l₁ l₂ l₀ : List Nat} {x y : Nat}
    (hnl : (10 : Nat) ∉ s) (hlast : (s.map lowerChar).getLast? = some y)
    (hl : l₂.map lowerChar = l₀ ++ [x]) (hxy : x ≠ y) :
    rmatches (sfx2 l₁ l₂) s = false := by
  cases hb : rmatches (sfx2 l₁ l₂) s with
  | false => rfl
  | true =>
    obtain ⟨u, q, e, hs, hq, he⟩ := sfx2_ends hb
    have hx := ends_getLast hs (hq.trans hl) he hnl
    exact absurd (Option.some.inj (hlast.symm.trans hx)).symm hxy

theorem web_false_of_last {s : List Nat} {y : Nat}
    (hnl : (10 : Nat) ∉ s) (hlast : (s.map lowerChar).getLast? = some y)
    (h108 : y ≠ 108) (h115 : y ≠ 115) :
    rmatches webPat s = false := by
  cases hb : rmatches webPat s with
  | false => rfl
  | true =>
    obtain ⟨u, q, e, hs, hq3, he⟩ := webPat_ends hb
    have hs' : s = (u ++ [46]) ++ q ++ e := by simp [hs]
    rcases hq3 with hq | hq | hq
    · have hx := ends_getLast hs'
        (hq.trans (show str "html" = [104, 116, 109] ++ [108] from by decide)) he hnl
      exact absurd (Option.some.inj (hlast.symm.trans hx)) h108
    · have hx := ends_getLast hs'
        (hq.trans (show str "css" = [99, 115] ++ [115] from by decide)) he hnl
      exact absurd (Option.some.inj (hlast.symm.trans hx)) h115
    · have hx := ends_getLast hs'
        (hq.trans (show str "js" = [106] ++ [115] from by decide)) he hnl
      exact absurd (Option.some.inj (hlast.symm.trans hx)) h115

/-- A newline-free filename whose lowercased form ends in ".md" matches
the documentation pattern. -/
theorem md_matches_of_ends {s : List Nat} (hnl : (10 : Nat) ∉ s)
    (hmd : str ".md" <:+ s.map lowerChar) :
    rmatches (sfx (str ".md")) s = true := by
  obtain ⟨w, hw⟩ := hmd
  obtain ⟨u, q, hs, hu, hq⟩ := List.map_eq_append_iff.mp hw.symm
  refine sfx_intro (u := u) (q := q) (e := []) (by simpa using hs) ?_ ?_ (Or.inl rfl)
  · intro x hx hx10
    subst hx10
    exact hnl (by rw [hs]; exact List.mem_append_left _ hx)
  · rw [hq]; decide

/-- A match of the SKILL.md pattern implies a match of the earlier
documentation pattern, which is why the skills rule is unreachable. -/
theorem skill_implies_md {s : List Nat}
    (hb : rmatches (.seq (lit (str "SKILL.md")) .eol) s = true) :
    rmatches (sfx (str ".md")) s = true := by
  obtain ⟨t, ht⟩ := rmatches_true_iff.mp hb
  rw [rmatch_seq, List.mem_flatMap] at ht
  obtain ⟨t₁, ht₁, ht⟩ := ht
  obtain ⟨p, rfl, hp⟩ := mem_rmatch_lit_decomp ht₁
  obtain ⟨rfl, he⟩ := mem_rmatch_eol ht
  have hp' : p.map lowerChar = str "skill" ++ str ".md" := by
    rw [hp]; decide
  obtain ⟨p₁, p₂, rfl, hp₁, hp₂⟩ := List.map_eq_append_iff.mp hp'
  refine sfx_intro (u := p₁) (q := p₂) (e := t) (by simp) ?_ ?_ he
  · intro x hx hx10
    subst hx10
    have hmem : lowerChar 10 ∈ p₁.map lowerChar := List.mem_map_of_mem _ hx
    rw [hp₁] at hmem
    revert hmem
    decide
  · rw [hp₂]; decide

/-- Helper for the default branch of route_file. -/
theorem findRoute_none_of_all_false {rules : List (Regex × Target)} {name : PyStr}
    (h : ∀ pr ∈ rules, rmatches pr.1 name = false) :
    findRoute rules name = none := by
  induction rules with
  | nil => rfl
  | cons hd rest ih =>
    cases hd with
    | mk p t =>
      have h0 : rmatches p name = false := h (p, t) (by simp)
      simp only [findRoute, h0, Bool.false_eq_true, if_false]
      exact ih fun pr hpr => h pr (by simp [hpr])

/-- Every newline-free filename whose lowercased form ends in ".md"
is routed by the documentation rule. -/
theorem md_routes_docs {name : PyStr} (hnl : (10 : Nat) ∉ name)
    (hmd : str ".md" <:+ name.map lowerChar) :
    route_file name = ⟨str "life-os", str "docs/", str "Documentation", name⟩ := by
  have h100 : (name.map lowerChar).getLast? = some 100 := by
    apply getLast?_of_suffix_concat (p := [46, 109])
    have : str ".md" = [46, 109] ++ [100] := by decide
    rw [← this]
    exact hmd
  have hyml : (str ".yml").map lowerChar = [46, 121, 109] ++ [108] := by decide
  have hpy : (str ".py").map lowerChar = [46, 112] ++ [121] := by decide
  have h0 : rmatches (sfx (str ".yml")) name = false :=
    sfx_false_of_last hnl h100 hyml (by decide)
  have h1 : rmatches (sfx2 (str "_node") (str ".py")) name = false :=
    sfx2_false_of_last hnl h100 hpy (by decide)
  have h2 : rmatches (sfx2 (str "_agent") (str ".py")) name = false :=
    sfx2_false_of_last hnl h100 hpy (by decide)
  have h3 : rmatches (sfx2 (str "_scraper") (str ".py")) name = false :=
    sfx2_false_of_last hnl h100 hpy (by decide)
  have h4 : rmatches (sfx (str ".py")) name = false :=
    sfx_false_of_last hnl h100 hpy (by decide)
  have h5 : rmatches webPat name = false :=
    web_false_of_last hnl h100 (by decide) (by decide)
  have h6 : rmatches (sfx (str ".md")) name = true := md_matches_of_ends hnl hmd
  have hfr : findRoute ROUTING_RULES name =
      some ⟨str "life-os", str "docs/", str "Documentation"⟩ := by
    simp only [ROUTING_RULES, findRoute, h0, h1, h2, h3, h4, h5, h6,
      Bool.false_eq_true, if_false, if_true]
  unfold route_file
  rw [hfr]

/-- No filename routes to the skills destination. -/
theorem route_never_skills (name : PyStr) :
    (route_file name).path ≠ str "skills/" := by
  unfold route_file
  cases h0 : rmatches (sfx (str ".yml")) name with
  | true => simp [ROUTING_RULES, findRoute, h0]; decide
  | false =>
  cases h1 : rmatches (sfx2 (str "_node") (str ".py")) name with
  | true => simp [ROUTING_RULES, findRoute, h0, h1]; decide
  | false =>
  cases h2 : rmatches (sfx2 (str "_agent") (str ".py")) name with
  | true => simp [ROUTING_RULES, findRoute, h0, h1, h2]; decide
  | false =>
  cases h3 : rmatches (sfx2 (str "_scraper") (str ".py")) name with
  | true => simp [ROUTING_RULES, findRoute, h0, h1, h2, h3]; decide
  | false =>
  cases h4 : rmatches (sfx (str ".py")) name with
  | true => simp [ROUTING_RULES, findRoute, h0, h1, h2, h3, h4]; decide
  | false =>
  cases h5 : rmatches webPat name with
  | true => simp [ROUTING_RULES, findRoute, h0, h1, h2, h3, h4, h5]; decide
  | false =>
  cases h6 : rmatches (sfx (str ".md")) name with
  | true => simp [ROUTING_RULES, findRoute, h0, h1, h2, h3, h4, h5, h6]; decide
  | false =>
  cases h7 : rmatches (sfx (str ".docx")) name with
  | true => simp [ROUTING_RULES, findRoute, h0, h1, h2, h3, h4, h5, h6, h7]; decide
  | false =>
  cases h8 : rmatches (sfx (str ".pdf")) name with
  | true =>
    simp [ROUTING_RULES, findRoute, h0, h1, h2, h3, h4, h5, h6, h7, h8]; decide
  | false =>
  cases h9 : rmatches (.seq (lit (str "SKILL.md")) .eol) name with
  | true => exact absurd (skill_implies_md h9) (by simp [h6])
  | false =>
    simp [ROUTING_RULES, findRoute, h0, h1, h2, h3, h4, h5, h6, h7, h8, h9]
    decide

/-- C3: for every filename, route_file returns exactly one destination,
the one of the first rule in declared order whose pattern matches; in
particular pipeline_scraper.py routes to the scraper-module destination
(brevard-bidder-scraper, src/scrapers/) and pipeline.py to the generic
Python-module destination (life-os, src/). -/
theorem route_first_match_deterministic :
    (∀ (name : PyStr) (i : Nat) (p : Regex) (t : Target),
      ROUTING_RULES.get? i = some (p, t) → rmatches p name = true →
      (∀ j, j < i → ∀ pj tj, ROUTING_RULES.get? j = some (pj, tj) →
        rmatches pj name = false) →
      route_file name = ⟨t.repo, t.path, t.description, name⟩) ∧
    route_file (str "pipeline_scraper.py") =
      ⟨str "brevard-bidder-scraper", str "src/scrapers/", str "Scraper module",
        str "pipeline_scraper.py"⟩ ∧
    route_file (str "pipeline.py") =
      ⟨str "life-os", str "src/", str "Python module", str "pipeline.py"⟩ := by
  refine ⟨?_, by decide, by decide⟩
  intro name i p t hget hm hprev
  unfold route_file
  rw [findRoute_first hget hm hprev]

/-- Witness for C3: the first-match rule applied at deploy.yml and rule 0. -/
theorem route_first_match_deterministic_witness :
    route_file (str "deploy.yml") =
      ⟨str "life-os", str ".github/workflows/", str "GitHub Actions workflow",
        str "deploy.yml"⟩ :=
  route_first_match_deterministic.1 (str "deploy.yml") 0 (sfx (str ".yml"))
    ⟨str "life-os", str ".github/workflows/", str "GitHub Actions workflow"⟩
    rfl (by decide) (fun j hj pj tj _ => absurd hj (by omega))

/-- C4: route_file is total (a Lean function never raises), the match is
case-insensitive (lowercasing the filename changes none of the returned
destination fields), and when no rule matches the fixed default
destination life-os / artifacts/ / Unclassified artifact is returned. -/
theorem route_total_default_case_insensitive :
    (∀ name : PyStr, (∀ pr ∈ ROUTING_RULES, rmatches pr.1 name = false) →
      route_file name =
        ⟨str "life-os", str "artifacts/", str "Unclassified artifact", name⟩) ∧
    (∀ name : PyStr,
      (route_file (name.map lowerChar)).repo = (route_file name).repo ∧
      (route_file (name.map lowerChar)).path = (route_file name).path ∧
      (route_file (name.map lowerChar)).description =
        (route_file name).description) := by
  constructor
  · intro name h
    unfold route_file
    rw [findRoute_none_of_all_false h]
  · intro name
    unfold route_file
    rw [findRoute_map_lower]
    cases findRoute ROUTING_RULES name <;> exact ⟨rfl, rfl, rfl⟩

/-- Witness for C4: no rule matches data.bin, so the default is returned. -/
theorem route_total_default_case_insensitive_witness :
    route_file (str "data.bin") =
      ⟨str "life-os", str "artifacts/", str "Unclassified artifact",
        str "data.bin"⟩ :=
  route_total_default_case_insensitive.1 (str "data.bin") (by decide)

/-- C10 counterexample: the filename with a newline in it ends in ".md"
(case-insensitively) yet routes to the default destination, not to the
documentation destination, because Python `.` does not cross a newline. -/
theorem md_always_docs_counterexample :
    str ".md" <:+ (str "a\nb.md").map lowerChar ∧
    route_file (str "a\nb.md") =
      ⟨str "life-os", str "artifacts/", str "Unclassified artifact",
        str "a\nb.md"⟩ := by
  exact ⟨by decide, by decide⟩

/-- C10 amended: every newline-free filename ending in ".md"
(case-insensitively) routes to the documentation destination
(life-os, docs/), and no filename at all ever routes to the skills
destination, the SKILL.md rule being preceded by the documentation rule
that matches whenever it does. -/
theorem md_routes_docs_and_skills_unreachable :
    (∀ name : PyStr, (10 : Nat) ∉ name → str ".md" <:+ name.map lowerChar →
      route_file name =
        ⟨str "life-os", str "docs/", str "Documentation", name⟩) ∧
    (∀ name : PyStr, (route_file name).path ≠ str "skills/") :=
  ⟨fun _ hnl hmd => md_routes_docs hnl hmd, route_never_skills⟩

/-- Witness for the amended C10: notes.md is newline-free, ends in ".md"
and routes to the documentation destination. -/
theorem md_routes_docs_and_skills_unreachable_witness :
    route_file (str "notes.md") =
      ⟨str "life-os", str "docs/", str "Documentation", str "notes.md"⟩ :=
  md_routes_docs_and_skills_unreachable.1 (str "notes.md") (by decide) (by decide)

example : base64Encode [255] = str "/w==" := by decide

example : base64Encode [104, 105] = str "aGk=" := by decide

example : base64Encode [97, 98, 99] = str "YWJj" := by decide

example : base64Decode (str "YWJj") = some [97, 98, 99] := by decide

example : utf8Decode [104, 105] = some [104, 105] := by decide

example : utf8Decode [255] = none := by decide

example : utf8Decode [206, 187] = some [955] := by decide

example : utf8Decode [237, 160, 128] = none := by decide

example : utf8Decode [192, 128] = none := by decide

example : encode_file [] = ([], false) := by decide

theorem b64Val_b64Char {n : Nat} (h : n < 64) : b64Val (b64Char n) = some n := by
  have key : ∀ m, m < 64 → b64Val (b64Char m) = some m := by decide
  exact key n h

theorem b64Char_ne_61 {n : Nat} (h : n < 64) : b64Char n ≠ 61 := by
  have key : ∀ m, m < 64 → b64Char m ≠ 61 := by decide
  exact key n h

theorem base64_roundtrip :
    ∀ bs : List Nat, (∀ b ∈ bs, b < 256) →
      base64Decode (base64Encode bs) = some bs
  | [], _ => rfl
  | [b₁], h => by
    have hb : b₁ < 256 := h b₁ (by simp)
    have h1 : b64Val (b64Char (b₁ / 4)) = some (b₁ / 4) :=
      b64Val_b64Char (by omega)
    have h2 : b64Val (b64Char (b₁ % 4 * 16)) = some (b₁ % 4 * 16) :=
      b64Val_b64Char (by omega)
    simp only [base64Encode, base64Decode, List.isEmpty_nil, h1, h2,
      and_self, if_pos, if_true]
    have : b₁ / 4 * 4 + b₁ % 4 * 16 / 16 = b₁ := by omega
    rw [this]
  | [b₁, b₂], h => by
    have hb₁ : b₁ < 256 := h b₁ (by simp)
    have hb₂ : b₂ < 256 := h b₂ (by simp)
    have h1 : b64Val (b64Char (b₁ / 4)) = some (b₁ / 4) :=
      b64Val_b64Char (by omega)
    have h2 : b64Val (b64Char (b₁ % 4 * 16 + b₂ / 16)) =
        some (b₁ % 4 * 16 + b₂ / 16) := b64Val_b64Char (by omega)
    have h3 : b64Val (b64Char (b₂ % 16 * 4)) = some (b₂ % 16 * 4) :=
      b64Val_b64Char (by omega)
    have hne : b64Char (b₂ % 16 * 4) ≠ 61 := b64Char_ne_61 (by omega)
    simp only [base64Encode, base64Decode, List.isEmpty_nil, and_self,
      if_pos, if_true, if_neg hne, h1, h2, h3]
    have e₁ : b₁ / 4 * 4 + (b₁ % 4 * 16 + b₂ / 16) / 16 = b₁ := by omega
    have e₂ : (b₁ % 4 * 16 + b₂ / 16) % 16 * 16 + b₂ % 16 * 4 / 4 = b₂ := by
      omega
    rw [e₁, e₂]
  | b₁ :: b₂ :: b₃ :: rest, h => by
    have hb₁ : b₁ < 256 := h b₁ (by simp)
    have hb₂ : b₂ < 256 := h b₂ (by simp)
    have hb₃ : b₃ < 256 := h b₃ (by simp)
    have ih := base64_roundtrip rest fun b hb => h b (by simp [hb])
    have h1 : b64Val (b64Char (b₁ / 4)) = some (b₁ / 4) :=
      b64Val_b64Char (by omega)
    have h2 : b64Val (b64Char (b₁ % 4 * 16 + b₂ / 16)) =
        some (b₁ % 4 * 16 + b₂ / 16) := b64Val_b64Char (by omega)
    have h3 : b64Val (b64Char (b₂ % 16 * 4 + b₃ / 64)) =
        some (b₂ % 16 * 4 + b₃ / 64) := b64Val_b64Char (by omega)
    have h4 : b64Val (b64Char (b₃ % 64)) = some (b₃ % 64) :=
      b64Val_b64Char (by omega)
    have hne : ¬((base64Encode rest).isEmpty ∧ b64Char (b₃ % 64) = 61) :=
      fun hc => b64Char_ne_61 (n := b₃ % 64) (by omega) hc.2
    show base64Decode (b64Char (b₁ / 4) :: b64Char (b₁ % 4 * 16 + b₂ / 16) ::
      b64Char (b₂ % 16 * 4 + b₃ / 64) :: b64Char (b₃ % 64) ::
      base64Encode rest) = _
    simp only [base64Decode, if_neg hne, h1, h2, h3, h4, ih]
    have e₁ : b₁ / 4 * 4 + (b₁ % 4 * 16 + b₂ / 16) / 16 = b₁ := by omega
    have e₂ : (b₁ % 4 * 16 + b₂ / 16) % 16 * 16 +
        (b₂ % 16 * 4 + b₃ / 64) / 4 = b₂ := by omega
    have e₃ : (b₂ % 16 * 4 + b₃ / 64) % 4 * 64 + b₃ % 64 = b₃ := by omega
    rw [e₁, e₂, e₃]

/-- Text containing no carriage return is left unchanged by the
universal-newline translation. -/
theorem newlineTranslate_id :
    ∀ {text : List Nat}, (13 : Nat) ∉ text → newlineTranslate text = text
  | [], _ => rfl
  | [c], h => by
    have hc : c ≠ 13 := fun he => h (by simp [he])
    simp only [newlineTranslate, if_neg hc]
  | c :: c₂ :: rest, h => by
    have hc : c ≠ 13 := fun he => h (by simp [he])
    have h₂ : (13 : Nat) ∉ c₂ :: rest := fun hm => h (List.mem_cons_of_mem _ hm)
    simp only [newlineTranslate, if_neg hc]
    rw [newlineTranslate_id h₂]

/-- C5 counterexample: the bytes of the text a-CR-LF-b are valid UTF-8,
decoding to the four code points unchanged, yet encode_file does not
return the decoded text unchanged: read_text opens the file in text
mode, whose universal-newline translation turns the CR-LF into a single
LF, so the returned content is the three code points of a-LF-b. -/
theorem encode_file_unchanged_counterexample :
    utf8Decode [97, 13, 10, 98] = some [97, 13, 10, 98] ∧
    encode_file [97, 13, 10, 98] = ([97, 10, 98], false) ∧
    [97, 10, 98] ≠ [97, 13, 10, 98] :=
  ⟨by decide, by decide, by decide⟩

/-- C5 amended: for bytes that are not valid UTF-8, encode_file returns
the base64 encoding with is_binary = true, and the base64 decoding
reconstructs the original bytes exactly; for bytes that decode as UTF-8
(including the empty file) it returns the decoded text after the
universal-newline translation of text mode (CR-LF and lone CR become
LF) with is_binary = false — in particular the decoded text is returned
unchanged whenever it contains no carriage return. -/
theorem encode_file_text_or_binary :
    ∀ bytes : List Nat, (∀ b ∈ bytes, b < 256) →
      (utf8Decode bytes = none →
        encode_file bytes = (base64Encode bytes, true) ∧
        base64Decode (base64Encode bytes) = some bytes) ∧
      (∀ text, utf8Decode bytes = some text →
        encode_file bytes = (newlineTranslate text, false) ∧
        ((13 : Nat) ∉ text → encode_file bytes = (text, false))) ∧
      (bytes = [] → encode_file bytes = ([], false)) := by
  intro bytes hb
  refine ⟨fun hn => ⟨?_, base64_roundtrip bytes hb⟩,
    fun text ht => ⟨?_, fun hcr => ?_⟩, fun he => ?_⟩
  · unfold encode_file
    rw [hn]
  · unfold encode_file
    rw [ht]
  · unfold encode_file
    rw [ht]
    show (newlineTranslate text, false) = (text, false)
    rw [newlineTranslate_id hcr]
  · subst he
    rfl

/-- Witness for C5: the single byte 0xFF is not UTF-8 and is encoded as
base64 that decodes back to itself, while the carriage-return-free text
bytes of hi come back unchanged as text. -/
theorem encode_file_text_or_binary_witness :
    (encode_file [255] = (base64Encode [255], true) ∧
      base64Decode (base64Encode [255]) = some [255]) ∧
    encode_file [104, 105] = ([104, 105], false) :=
  ⟨(encode_file_text_or_binary [255] (by decide)).1 (by decide),
   ((encode_file_text_or_binary [104, 105] (by decide)).2.1 [104, 105]
     (by decide)).2 (by decide)⟩

theorem chunksBy_flatten (n : Nat) : ∀ l : List Nat, (chunksBy n l).flatten = l
  | [] => by simp [chunksBy]
  | a :: rest => by
      rw [chunksBy, List.flatten_cons, chunksBy_flatten n (rest.drop (n - 1)),
        List.cons_append, List.take_append_drop]
termination_by l => l.length
decreasing_by
  simp only [List.length_drop, List.length_cons]
  omega

theorem shaUpdate_flatten (L : List (List Nat)) (s : SHA256State) :
    L.foldl shaUpdate s = shaUpdate s L.flatten := by
  show L.foldl (fun s bs => bs.foldl absorbByte s) s = L.flatten.foldl absorbByte s
  rw [List.foldl_flatten]

theorem compress_length (hs block : List Nat) : (compress hs block).length = 8 := by
  unfold compress
  rfl

theorem foldl_compress_length (blocks : List (List Nat)) :
    ∀ h : List Nat, blocks ≠ [] → (blocks.foldl compress h).length = 8 := by
  induction blocks with
  | nil => exact fun h hne => absurd rfl hne
  | cons b rest ih =>
    intro h _
    rw [List.foldl_cons]
    cases rest with
    | nil =>
      rw [List.foldl_nil]
      exact compress_length h b
    | cons b₂ r₂ => exact ih (compress h b) (by simp)

theorem chunksBy_ne_nil {n : Nat} {l : List Nat} (h : l ≠ []) :
    chunksBy n l ≠ [] := by
  cases l with
  | nil => exact absurd rfl h
  | cons a rest =>
    rw [chunksBy]
    simp

theorem shaFinal_length (s : SHA256State) : (shaFinal s).length = 8 := by
  unfold shaFinal
  apply foldl_compress_length
  apply chunksBy_ne_nil
  simp

theorem flatMap_wordHex_length (l : List Nat) :
    (l.flatMap wordHex).length = 8 * l.length := by
  induction l with
  | nil => rfl
  | cons a rest ih =>
    simp only [List.flatMap_cons, List.length_append, ih, wordHex,
      List.length_cons, List.length_nil]
    omega

theorem hexdigest_length (s : SHA256State) : (hexdigest s).length = 64 := by
  unfold hexdigest
  rw [flatMap_wordHex_length, shaFinal_length]

/-- C6: calculate_checksum is a pure function of the raw file bytes, so
repeated calls agree; streaming the bytes through 4096-byte chunks gives
the same digest as hashing the whole content at once; the digest has 64
hex characters (256 bits); and the manifest checksum ignores the encoded
content and the binary flag, so it is identical under either transport
encoding of the same bytes. -/
theorem checksum_deterministic_raw_chunked :
    ∀ bytes : List Nat,
      calculate_checksum bytes = sha256Hex bytes ∧
      (calculate_checksum bytes).length = 64 ∧
      ∀ (fp : PyPath) (route : RouteResult) (c₁ c₂ : PyStr)
        (bin₁ bin₂ : Bool) (ts : PyStr),
        (create_deployment_manifest fp route c₁ bin₁ bytes ts).checksum =
          (create_deployment_manifest fp route c₂ bin₂ bytes ts).checksum := by
  intro bytes
  have hchunk : calculate_checksum bytes = sha256Hex bytes := by
    unfold calculate_checksum sha256Hex
    rw [shaUpdate_flatten, chunksBy_flatten]
  exact ⟨hchunk, hexdigest_length _, fun _ _ _ _ _ _ _ => rfl⟩

/-- C7: the manifest target path is always the destination path prefix
concatenated with the bare filename; no subdirectory nesting is derived
from the source path, so any two source paths with the same final
component produce the same target path. -/
theorem manifest_target_path_flat :
    ∀ (filepath : PyPath) (route : RouteResult) (content : PyStr)
      (is_binary : Bool) (bytes : List Nat) (ts : PyStr),
      (create_deployment_manifest filepath route content is_binary bytes
          ts).target_path = route.path ++ filepath.name ∧
      ∀ parent₂ : List PyStr,
        (create_deployment_manifest ⟨parent₂, filepath.name⟩ route content
            is_binary bytes ts).target_path =
          (create_deployment_manifest filepath route content is_binary bytes
            ts).target_path :=
  fun _ _ _ _ _ _ => ⟨rfl, fun _ => rfl⟩

/-- C8: scan_outputs returns an empty sequence, not an error, when the
root directory does not exist, and every returned entry is a regular
file (never a directory) whose name does not begin with the hidden-file
marker. -/
theorem scan_only_visible_files_empty_on_missing :
    scan_outputs none = [] ∧
    ∀ (root : FSEntry) (e : FSEntry), e ∈ scan_outputs (some root) →
      isFile e = true ∧ startsWithDot (entryName e) = false := by
  refine ⟨rfl, fun root e he => ?_⟩
  unfold scan_outputs at he
  have := List.of_mem_filter he
  simp only [Bool.and_eq_true, Bool.not_eq_true'] at this
  exact this

/-- Witness for C8: a concrete tree with a visible file, a hidden file
and a subdirectory; the visible file is in the scan and satisfies the
conclusion. -/
theorem scan_only_visible_files_empty_on_missing_witness :
    isFile (.file (str "a.py")) = true ∧
    startsWithDot (entryName (.file (str "a.py"))) = false :=
  scan_only_visible_files_empty_on_missing.2
    (.dir (str "outputs")
      [.file (str "a.py"), .file (str ".hidden"),
       .dir (str "sub") [.file (str "b.md")]])
    (.file (str "a.py")) (List.Mem.head _)

/-- A successful deploy_file appends one prepared entry to the log. -/
theorem deploy_file_ok_shape {f : SFile} {log : List LogEntry} {ts : PyStr}
    {r : PushResult} {log' : List LogEntry}
    (h : deploy_file f log ts = .ok (r, log')) :
    r.status = str "prepared" ∧
    ∃ entry : LogEntry, log' = log ++ [entry] ∧ entry.result = r := by
  unfold deploy_file at h
  cases hbs : f.bytes with
  | error e => rw [hbs] at h; exact absurd h (by simp)
  | ok bs =>
    rw [hbs] at h
    injection h with h'
    injection h' with h₁ h₂
    subst h₁
    exact ⟨rfl, _, h₂.symm, rfl⟩

/-- The deployment log accumulated by the fold holds prepared entries
only: the except branch of deploy_all never appends to it. -/
theorem deployFold_log_prepared (files : List SFile) (ts : PyStr) :
    ∀ acc : List DeployOutcome × List LogEntry,
      (∀ e ∈ acc.2, e.result.status = str "prepared") →
      ∀ e ∈ (files.foldl (deployStep ts) acc).2,
        e.result.status = str "prepared" := by
  induction files with
  | nil => exact fun acc h => h
  | cons f rest ih =>
    intro acc hacc
    rw [List.foldl_cons]
    apply ih
    unfold deployStep
    cases hd : deploy_file f acc.2 ts with
    | error e => exact hacc
    | ok p =>
      obtain ⟨r, log'⟩ := p
      obtain ⟨hr, entry, rfl, hres⟩ := deploy_file_ok_shape hd
      intro e he
      rcases List.mem_append.mp he with h1 | h1
      · exact hacc e h1
      · rw [List.mem_singleton.mp h1, hres]
        exact hr

/-- deploy_all produces one outcome per scanned file. -/
theorem deployFold_length (files : List SFile) (ts : PyStr) :
    ∀ acc : List DeployOutcome × List LogEntry,
      (files.foldl (deployStep ts) acc).1.length =
        acc.1.length + files.length := by
  induction files with
  | nil => intro acc; simp
  | cons f rest ih =>
    intro acc
    rw [List.foldl_cons, ih]
    unfold deployStep
    cases deploy_file f acc.2 ts with
    | ok p =>
      obtain ⟨r, log'⟩ := p
      simp
      omega
    | error e =>
      simp
      omega

/-- C2: evaluated at the failing input (one unreadable file alongside
one readable file).  deploy_all does catch the error per file, returns
two entries (one failed with the error description, one prepared) and
continues — but the failed record lands only in the returned results
list: the deployment log receives no failed entry (its only entry is
the prepared one), so the Failed counter that
generate_deployment_report computes from the log stays 0. -/
theorem deploy_all_partial_failure_eval :
    (deploy_all [sampleBad, sampleGood] (str "t0")).1.map outcomeStatus =
      [str "failed", str "prepared"] ∧
    (deploy_all [sampleBad, sampleGood] (str "t0")).1.headD
        (.failed [] []) =
      .failed (str "Permission denied") (str "data.bin") ∧
    (deploy_all [sampleBad, sampleGood] (str "t0")).2.map
        (fun e => e.result.status) = [str "prepared"] ∧
    report_counters (deploy_all [sampleBad, sampleGood] (str "t0")).2 =
      (1, 1, 0) := by
  refine ⟨rfl, rfl, rfl, ?_⟩
  unfold report_counters
  rfl

/-- C1: on a deployment log with zero entries, verify_all raises
ZeroDivisionError while rendering the summary (verified/total*100 with
total = 0) instead of returning a total=0, success_rate=0 summary; the
guarded success_rate expression in the returned dictionary is never
reached. -/
theorem verify_all_empty_raises :
    verify_all [] (fun _ => .status (str "200")) =
      .error .zeroDivisionError := rfl

/-- C9: verify_file_exists returns true exactly on an exact 200 status
string and false on every other outcome (404, any other code, any
caught exception), without raising or retrying; verifying a log of two
entries answered 200 and 404 yields total 2, verified 1, failed 1,
success_rate 1/2 with the per-entry detail in order. -/
theorem verify_exact_200_and_half_rate :
    (∀ outcome : TransportOutcome,
      verify_file_exists outcome = true ↔ outcome = .status (str "200")) ∧
    verify_all [vdep "a.md" "life-os" "docs/a.md",
        vdep "b.py" "life-os" "src/b.py"] oracle200_404 =
      .ok ⟨2, 1, 1, 1 / 2,
        [⟨str "a.md", str "life-os", str "docs/a.md", true⟩,
         ⟨str "b.py", str "life-os", str "src/b.py", false⟩]⟩ := by
  constructor
  · intro outcome
    cases outcome with
    | status code => simp [verify_file_exists]
    | exc m => simp [verify_file_exists]
  · have h : verify_all [vdep "a.md" "life-os" "docs/a.md",
        vdep "b.py" "life-os" "src/b.py"] oracle200_404 =
      .ok ⟨2, 1, 1, ((1 : Nat) : ℚ) / ((2 : Nat) : ℚ),
        [⟨str "a.md", str "life-os", str "docs/a.md", true⟩,
         ⟨str "b.py", str "life-os", str "src/b.py", false⟩]⟩ := rfl
    rw [h]
    norm_num

/-- Witness for C9: an exact 200 status is verified. -/
theorem verify_exact_200_and_half_rate_witness :
    verify_file_exists (.status (str "200")) = true :=
  (verify_exact_200_and_half_rate.1 (.status (str "200"))).mpr rfl
